import Mathlib

/-!
# Verification of the dockadvisor Dockerfile analyzer

A shallow embedding of the rule engine of the `parse` Go package
(`ParseDockerfile`, `calculateScore`, the cross-instruction passes and the
per-instruction validators that the claims touch), together with theorems
settling claims about it.

Conventions of the embedding:
* `parser.Node` (the buildkit AST node for one instruction) becomes `Node`;
  its linked list of argument tokens (`Next` chain) becomes `args : List ArgNode`,
  its `Attributes` map becomes the list of its keys.
* Go maps used as sets are modelled as `List String` with membership lookups;
  where a map's iteration order is observable (`checkDuplicateStageNames`)
  the map is modelled as an insertion-ordered association list, and the
  modelling choice is noted at the definition.
* Go `int` becomes `Int`; line numbers become `Nat`.
* `Severity` is a Go string type, so severities are plain `String`s; a Go
  struct literal that omits the `Severity` field produces the zero value `""`,
  and the embedding writes that `""` explicitly.
* The Go `strings` functions used by the source are re-defined here by
  structural recursion over the character list (`String.data`), so that every
  definition evaluates inside the kernel; they agree with Go's behaviour on
  the ASCII inputs the analyzer manipulates.
-/

set_option autoImplicit false

namespace Dockadvisor

/-! ## Go string primitives (structural, kernel-evaluable) -/

/-- `strings.ToUpper` (ASCII). -/
def goToUpper (s : String) : String := String.mk (s.data.map Char.toUpper)

/-- `strings.ToLower` (ASCII). -/
def goToLower (s : String) : String := String.mk (s.data.map Char.toLower)

/-- `strings.TrimSpace`. -/
def goTrim (s : String) : String :=
  String.mk (((s.data.dropWhile Char.isWhitespace).reverse.dropWhile Char.isWhitespace).reverse)

/-- `strings.TrimRight(s, " \t\r")`. -/
def goTrimRightWsp (s : String) : String :=
  String.mk ((s.data.reverse.dropWhile (fun c => c = ' ' ∨ c = '\t' ∨ c = '\r')).reverse)

/-- Whether `pre` is a prefix of the character list `l`. -/
def listIsPrefix : List Char → List Char → Bool
  | [], _ => true
  | _ :: _, [] => false
  | a :: as, b :: bs => a = b && listIsPrefix as bs

/-- `strings.HasPrefix`. -/
def goHasPrefix (s pre : String) : Bool := listIsPrefix pre.data s.data

/-- `strings.HasSuffix`. -/
def goHasSuffix (s suf : String) : Bool := listIsPrefix suf.data.reverse s.data.reverse

/-- `strings.TrimPrefix`. -/
def goTrimPrefix (s pre : String) : String :=
  if goHasPrefix s pre then String.mk (s.data.drop pre.data.length) else s

/-- `strings.Contains(s, string(c))` for a one-character separator. -/
def goContainsChar (s : String) (c : Char) : Bool := s.data.contains c

/-- The splitting loop behind `strings.Split` and `strings.Fields`:
cut at every character satisfying `p`. -/
def splitByAux (p : Char → Bool) : List Char → List Char → List String
  | [], cur => [String.mk cur.reverse]
  | c :: rest, cur =>
    if p c then String.mk cur.reverse :: splitByAux p rest []
    else splitByAux p rest (c :: cur)

/-- `strings.Split(s, string(sep))` for a one-character separator. -/
def splitOnChar (sep : Char) (s : String) : List String :=
  splitByAux (fun c => c = sep) s.data []

/-- `strings.Fields`: the maximal runs of non-whitespace characters. -/
def goFields (s : String) : List String :=
  (splitByAux Char.isWhitespace s.data []).filter (fun t => t ≠ "")

/-- `strings.Join(parts, sep)`. -/
def goJoin (sep : String) : List String → String
  | [] => ""
  | [x] => x
  | x :: rest => x ++ sep ++ goJoin sep rest

/-- The part of `s` before its first `c` (all of `s` when `c` is absent):
`strings.SplitN(s, string(c), 2)[0]`, also `s[:strings.Index(s, string(c))]`. -/
def beforeChar (c : Char) (s : String) : String :=
  String.mk (s.data.takeWhile (fun d => d ≠ c))

/-- The part of `s` after its first `c` (empty when `c` is absent):
`strings.SplitN(s, string(c), 2)[1]`. -/
def afterChar (c : Char) (s : String) : String :=
  String.mk ((s.data.dropWhile (fun d => d ≠ c)).drop 1)

/-! ## Data model -/

/-- `Rule` from the Go source: one violation, pinned to a line range. -/
structure Rule where
  startLine : Nat
  endLine : Nat
  code : String
  description : String
  url : String
  severity : String
  deriving DecidableEq, Repr

/-- One token of an instruction's argument list (one node of the Go parser's
`Next` chain): its `Value` and its `Flags`. -/
structure ArgNode where
  value : String
  flags : List String
  deriving DecidableEq, Repr

/-- One instruction node (`parser.Node` in the Go source): keyword `value`
(case preserved), the raw `original` line, the instruction `flags`, the keys
of the `attributes` map, the argument tokens, and the 1-based line range. -/
structure Node where
  value : String
  original : String
  flags : List String
  attributes : List String
  args : List ArgNode
  startLine : Nat
  endLine : Nat
  deriving DecidableEq, Repr

/-- `NewErrorRule` from the Go source. -/
def NewErrorRule (n : Node) (code description url : String) : Rule :=
  ⟨n.startLine, n.endLine, code, description, url, "error"⟩

/-- `NewWarningRule` from the Go source. -/
def NewWarningRule (n : Node) (code description url : String) : Rule :=
  ⟨n.startLine, n.endLine, code, description, url, "warning"⟩

/-- `NewFatalRule` from the Go source. -/
def NewFatalRule (n : Node) (code description url : String) : Rule :=
  ⟨n.startLine, n.endLine, code, description, url, "fatal"⟩

/-- `invalidInstructionRule` from the Go source: an error rule with code
`InvalidInstruction` and an empty url. -/
def invalidInstructionRule (n : Node) (description : String) : Rule :=
  NewErrorRule n "InvalidInstruction" description ""

/-! ## The scorer (`calculateScore`) -/

/-- The loop of `calculateScore`: walks the rules accumulating the error and
warning counts, returning 0 immediately at the first `fatal` rule; at the end
the score is `100 - (errors*15 + warnings*5)` clamped below at 0. -/
def calcLoop : List Rule → Nat → Nat → Int
  | [], e, w =>
    let score : Int := 100 - ((e : Int) * 15 + (w : Int) * 5)
    if score < 0 then 0 else score
  | r :: rest, e, w =>
    if r.severity = "fatal" then 0
    else if r.severity = "error" then calcLoop rest (e + 1) w
    else if r.severity = "warning" then calcLoop rest e (w + 1)
    else calcLoop rest e w

/-- `calculateScore` from the Go source. -/
def calculateScore (rules : List Rule) : Int :=
  calcLoop rules 0 0

/-- `Result` from the Go source. -/
structure Result where
  rules : List Rule
  score : Int
  deriving DecidableEq, Repr

/-- The tail of `ParseDockerfile`: the returned `Result` packages the final
rule list with `calculateScore` applied to that same list. -/
def parseResult (rules : List Rule) : Result :=
  ⟨rules, calculateScore rules⟩

/-- Whether some rule of the list has severity `fatal`. -/
def hasFatal (rules : List Rule) : Bool :=
  rules.any (fun r => r.severity = "fatal")

/-- The number of rules whose severity is exactly `error`. -/
def errCount (rules : List Rule) : Nat :=
  rules.countP (fun r => r.severity = "error")

/-- The number of rules whose severity is exactly `warning`. -/
def warnCount (rules : List Rule) : Nat :=
  rules.countP (fun r => r.severity = "warning")

/-! ## The dispatch loop of `ParseDockerfile` -/

/-- The 18 instruction keywords recognized by the dispatch `switch` of
`ParseDockerfile` (each case compares the uppercased keyword). -/
def recognizedInstructions : List String :=
  ["FROM", "WORKDIR", "RUN", "EXPOSE", "CMD", "ENTRYPOINT", "SHELL", "VOLUME",
   "USER", "LABEL", "ENV", "ARG", "COPY", "ADD", "HEALTHCHECK", "ONBUILD",
   "STOPSIGNAL", "MAINTAINER"]

/-- The fatal rule built by the `default` case of the dispatch `switch`. -/
def unrecognizedRule (n : Node) : Rule :=
  NewFatalRule n "UnrecognizedInstruction"
    ("'" ++ n.value ++ "' is not a recognized Dockerfile instruction")
    "https://docs.docker.com/reference/dockerfile/"

/-- One iteration of the dispatch loop of `ParseDockerfile`. The 18 recognized
cases each call a dedicated validator (`parseFROM`, `parseWorkdir`, ...);
those validators are abstracted as the parameter `validate`, keyed by the
uppercased keyword, since the claims about this loop concern only the
`default` (unrecognized) case and the score. -/
def instructionRules (validate : String → Node → List Rule) (n : Node) : List Rule :=
  let insUppercase := goToUpper n.value
  if recognizedInstructions.contains insUppercase then validate insUppercase n
  else [unrecognizedRule n]

/-- The dispatch loop of `ParseDockerfile`: each instruction's rules are
appended in traversal order. -/
def dispatchAll (validate : String → Node → List Rule) (children : List Node) : List Rule :=
  children.flatMap (instructionRules validate)

/-- The final stretch of `ParseDockerfile`: the rules of the cross-instruction
passes (`preRules`, abstracted) followed by the dispatch loop's rules, scored
by `calculateScore`. -/
def parseDockerfileCore (validate : String → Node → List Rule)
    (preRules : List Rule) (children : List Node) : Result :=
  parseResult (preRules ++ dispatchAll validate children)

/-! ## FROM components and the duplicate-stage-names pass -/

/-- The value of the first `--platform=` flag of a FROM instruction
(`extractFromComponents`, first loop: break at the first match). -/
def findPlatformFlagValue : List String → String
  | [] => ""
  | f :: rest =>
    if goHasPrefix f "--platform=" then goTrimPrefix f "--platform="
    else findPlatformFlagValue rest

/-- `extractFromComponents` from the Go source:
`(imageRef, stageName, platformFlag)` of a FROM instruction. -/
def extractFromComponents (n : Node) : String × String × String :=
  let platformFlag := findPlatformFlagValue n.flags
  match n.args with
  | [] => ("", "", platformFlag)
  | a :: rest =>
    let stageName :=
      match rest with
      | [] => ""
      | b :: rest' =>
        if goToUpper b.value = "AS" then
          match rest' with
          | [] => ""
          | c :: _ => c.value
        else ""
    (a.value, stageName, platformFlag)

/-- `stageInfo` from the Go source. -/
structure StageInfo where
  originalName : String
  startLine : Nat
  endLine : Nat
  deriving DecidableEq, Repr

/-- The lowercased stage name: the key under which `checkDuplicateStageNames`
files a stage occurrence. -/
def keyOf (s : StageInfo) : String := goToLower s.originalName

/-- The named stages of the FROM instructions, in traversal order (the
collection loop of `checkDuplicateStageNames` before the map is built). -/
def namedStages (children : List Node) : List StageInfo :=
  children.filterMap (fun c =>
    if goToUpper c.value = "FROM" then
      let stageName := (extractFromComponents c).2.1
      if stageName ≠ "" then some ⟨stageName, c.startLine, c.endLine⟩ else none
    else none)

/-- `stageNames[k] = append(stageNames[k], v)` on the association-list model
of the Go map: the entry for `k` grows at its place, a missing key is
appended at the end. -/
def insertStage (k : String) (v : StageInfo) :
    List (String × List StageInfo) → List (String × List StageInfo)
  | [] => [(k, [v])]
  | (k', vs) :: rest =>
    if k' = k then (k', vs ++ [v]) :: rest else (k', vs) :: insertStage k v rest

/-- The `stageNames` map of `checkDuplicateStageNames`, modelled as an
insertion-ordered association list (the Go map's iteration order is
unspecified; first-insertion order is the deterministic model used here). -/
def collectStages (children : List Node) : List (String × List StageInfo) :=
  (namedStages children).foldl (fun acc s => insertStage (keyOf s) s acc) []

/-- The `DuplicateStageName` rule emitted for one occurrence. -/
def dupStageRule (s : StageInfo) : Rule :=
  ⟨s.startLine, s.endLine, "DuplicateStageName",
    "Duplicate stage name '" ++ s.originalName ++ "', stage names should be unique",
    "https://docs.docker.com/reference/build-checks/duplicate-stage-name/", "error"⟩

/-- `checkDuplicateStageNames` from the Go source: every name held by two or
more stages is reported at each of its occurrences, iterating the map's
entries (insertion order in this model). -/
def checkDuplicateStageNames (children : List Node) : List Rule :=
  if children.isEmpty then []
  else (collectStages children).flatMap
    (fun p => if 1 < p.2.length then p.2.map dupStageRule else [])

/-- First-match lookup in the association-list model. -/
def groupsFind (k : String) : List (String × List StageInfo) → List StageInfo
  | [] => []
  | (k', vs) :: rest => if k' = k then vs else groupsFind k rest

/-- The keys of the association list. -/
def groupKeys (acc : List (String × List StageInfo)) : List String :=
  acc.map Prod.fst

/-- A FROM instruction node with an AS stage name, for concrete inputs. -/
def fromNodeNamed (image stage : String) (line : Nat) : Node :=
  ⟨"FROM", "", [], [], [⟨image, []⟩, ⟨"AS", []⟩, ⟨stage, []⟩], line, line⟩

/-- Four FROM instructions interleaving two duplicated stage names. -/
def c4Input : List Node :=
  [fromNodeNamed "alpine" "x" 1, fromNodeNamed "debian" "y" 2,
   fromNodeNamed "golang" "x" 3, fromNodeNamed "busybox" "y" 4]


/-! ## The ARG validator (`parseARG`) -/

/-- `extractARGConfig` from the Go source: the argument tokens joined by
single spaces. -/
def extractARGConfig (n : Node) : String :=
  goJoin " " (n.args.map ArgNode.value)

/-- `checkARGLegacySyntax` from the Go source: more than one
whitespace-separated part, at least one of which carries no `=`. -/
def checkARGLegacySyntax (config : String) : Bool :=
  let config := goTrim config
  if config = "" then false
  else
    let parts := goFields config
    if parts.length ≤ 1 then false
    else parts.any (fun part => ¬goContainsChar part '=')

/-- `isValidARGName` from the Go source: the regular expression
`^[a-zA-Z_][a-zA-Z0-9_]*$`. -/
def isValidARGName (name : String) : Bool :=
  match name.data with
  | [] => false
  | c :: rest => (c.isAlpha || c = '_') && rest.all (fun d => d.isAlphanum || d = '_')

/-- `checkARGFormat` from the Go source: every whitespace-separated part is
`name` or `name=value` with a valid name. -/
def checkARGFormat (config : String) : Bool :=
  let config := goTrim config
  if config = "" then false
  else (goFields config).all (fun part =>
    if goContainsChar part '=' then isValidARGName (beforeChar '=' part)
    else isValidARGName part)

/-- The `ArgMissingName` rule of `parseARG`. -/
def argMissingNameRule (n : Node) : Rule :=
  NewErrorRule n "ArgMissingName"
    "ARG instruction must specify at least one argument name"
    "https://docs.docker.com/reference/dockerfile/#arg"

/-- The `ArgInvalidFormat` rule of `parseARG`. -/
def argInvalidFormatRule (n : Node) : Rule :=
  NewErrorRule n "ArgInvalidFormat"
    "ARG instruction must be in the format <name>[=<default value>]"
    "https://docs.docker.com/reference/dockerfile/#arg"

/-- The `LegacyKeyValueFormat` warning of `parseARG`. -/
def argLegacyRule (n : Node) : Rule :=
  NewWarningRule n "LegacyKeyValueFormat"
    "Legacy key/value format with whitespace separator should not be used. Use ARG key=value format instead"
    "https://docs.docker.com/reference/build-checks/legacy-key-value-format/"

/-- `parseARG` from the Go source. The format check runs only when the legacy
syntax is absent (`!checkARGLegacySyntax(argConfig) && !checkARGFormat(argConfig)`). -/
def parseARG (n : Node) : List Rule :=
  if n.args = [] then [invalidInstructionRule n "ARG requires at least one argument"]
  else
    let argConfig := extractARGConfig n
    if goTrim argConfig = "" then [argMissingNameRule n]
    else if ¬checkARGLegacySyntax argConfig ∧ ¬checkARGFormat argConfig then
      [argInvalidFormatRule n]
    else if checkARGLegacySyntax argConfig then [argLegacyRule n]
    else []

/-! ## The continuation scanner (`checkEmptyContinuations`) -/

/-- Whether the rightmost non-whitespace character of the line (after
`TrimRight(line, " \t\r")`) is a backslash. -/
def endsWithBackslash (line : String) : Bool :=
  goHasSuffix (goTrimRightWsp line) "\\"

/-- The predicate of the backward search of `checkEmptyContinuations`: a line
that is non-empty after trimming and does not end with a continuation
backslash. -/
def isInstrBoundary (line : String) : Bool :=
  goTrim line ≠ "" && ¬endsWithBackslash line

/-- The backward search of `checkEmptyContinuations`: scan indices `j, j-1,
..., 0` for the first line satisfying `isInstrBoundary` and return `j + 1`
(1-indexed), or `dflt` when none is found. -/
def findInstructionLine (lines : List String) (dflt : Nat) : Nat → Nat
  | 0 => if isInstrBoundary (lines.getD 0 "") then 1 else dflt
  | j + 1 =>
    if isInstrBoundary (lines.getD (j + 1) "") then j + 2
    else findInstructionLine lines dflt j

/-- The `NoEmptyContinuation` warning. -/
def noEmptyContinuationRule (startL endL : Nat) : Rule :=
  ⟨startL, endL, "NoEmptyContinuation",
    "Empty continuation line found. Empty lines following a backslash continuation are deprecated and will cause errors in future Docker versions.",
    "https://docs.docker.com/reference/build-checks/no-empty-continuation/", "warning"⟩

/-- The scanning loop of `checkEmptyContinuations`: `i` is the 0-based index
of the first line of `remaining` within `lines`. At a backslash-ended line
whose following line is empty, emit a rule spanning `findInstructionLine` to
the empty line (1-indexed `i+2`) and skip the empty line (the Go `i++`). -/
def scanContAux (lines : List String) : Nat → List String → List Rule
  | _, [] => []
  | i, line :: rest =>
    if ¬endsWithBackslash line then scanContAux lines (i + 1) rest
    else
      match rest with
      | [] => []
      | next :: rest' =>
        if goTrim next = "" then
          noEmptyContinuationRule (findInstructionLine lines (i + 1) i) (i + 2) ::
            scanContAux lines (i + 2) rest'
        else scanContAux lines (i + 1) (next :: rest')

/-- `checkEmptyContinuations` from the Go source. -/
def checkEmptyContinuations (content : String) : List Rule :=
  scanContAux (splitOnChar '\n' content) 0 (splitOnChar '\n' content)

/-! ## The JSON-args pass (`checkJSONArgsRecommended`) -/

/-- The original argument region of a CMD/ENTRYPOINT instruction:
`strings.TrimSpace(strings.TrimPrefix(child.Original, child.Value))`. -/
def argRegion (n : Node) : String :=
  goTrim (goTrimPrefix n.original n.value)

/-- Whether some instruction of the file is a SHELL instruction. -/
def hasShellInstruction (children : List Node) : Bool :=
  children.any (fun c => goToUpper c.value = "SHELL")

/-- The `JSONArgsRecommended` warning for one CMD/ENTRYPOINT instruction. -/
def jsonArgsRule (n : Node) : Rule :=
  ⟨n.startLine, n.endLine, "JSONArgsRecommended",
    "JSON arguments recommended for " ++ goToUpper n.value ++
      " to prevent unintended behavior related to OS signals",
    "https://docs.docker.com/reference/build-checks/json-args-recommended/", "warning"⟩

/-- The second pass of `checkJSONArgsRecommended`: flag every CMD/ENTRYPOINT
whose non-empty argument region is not exec form, unless a SHELL instruction
exists. -/
def jsonArgsLoop (hasShell : Bool) : List Node → List Rule
  | [] => []
  | c :: rest =>
    let instruction := goToUpper c.value
    if instruction ≠ "CMD" ∧ instruction ≠ "ENTRYPOINT" then jsonArgsLoop hasShell rest
    else
      let trimmedOriginal := argRegion c
      if trimmedOriginal = "" then jsonArgsLoop hasShell rest
      else
        let isExecForm := goHasPrefix trimmedOriginal "["
        if ¬isExecForm ∧ ¬hasShell then jsonArgsRule c :: jsonArgsLoop hasShell rest
        else jsonArgsLoop hasShell rest

/-- `checkJSONArgsRecommended` from the Go source. -/
def checkJSONArgsRecommended (children : List Node) : List Rule :=
  if children.isEmpty then []
  else jsonArgsLoop (hasShellInstruction children) children

/-- The qualifying condition of the JSON-args pass, per instruction: a
CMD/ENTRYPOINT keyword, a non-empty original argument region, and no leading
bracket. -/
def jsonQualifies (c : Node) : Bool :=
  (goToUpper c.value = "CMD" || goToUpper c.value = "ENTRYPOINT") &&
    argRegion c ≠ "" && ¬goHasPrefix (argRegion c) "["

/-! ## The constant-platform pass (`checkPlatformFlagConstDisallowed`) -/

/-- `checkPlatformConstant` from the Go source: a non-empty trimmed platform
that does not start with `$`. -/
def checkPlatformConstant (platform : String) : Bool :=
  let platform := goTrim platform
  if platform = "" then false
  else ¬goHasPrefix platform "$"

/-- `extractStagePrefix` from the Go source: the part of the stage name
before the first `_` or `-` (the whole name when neither occurs). -/
def extractStagePrefix (stageName : String) : String :=
  String.mk (stageName.data.takeWhile (fun c => c ≠ '_' ∧ c ≠ '-'))

/-- The first pass of `checkPlatformFlagConstDisallowed`: the lowercased
declared stage names (the `stageNames` set). -/
def stageKeysOf (children : List Node) : List String :=
  children.filterMap (fun c =>
    if goToUpper c.value = "FROM" then
      let stageName := (extractFromComponents c).2.1
      if stageName ≠ "" then some (goToLower stageName) else none
    else none)

/-- One step of the second pass: the stage keys marked as referenced by one
image reference. An exact match marks that key alone (`continue`); otherwise
every key whose `extractStagePrefix` the image reference starts with is
marked. -/
def marksForRef (keys : List String) (imageRefLower : String) : List String :=
  if keys.contains imageRefLower then [imageRefLower]
  else keys.filter (fun stageName => goHasPrefix imageRefLower (extractStagePrefix stageName))

/-- The second pass of `checkPlatformFlagConstDisallowed`: the
`referencedStages` set, as the marks accumulated over every FROM
instruction (including the one under scrutiny itself). -/
def referencedStages (children : List Node) : List String :=
  let keys := stageKeysOf children
  children.flatMap (fun c =>
    if goToUpper c.value = "FROM" then
      let imageRef := (extractFromComponents c).1
      if imageRef ≠ "" then marksForRef keys (goToLower imageRef) else []
    else [])

/-- The `FromPlatformFlagConstDisallowed` warning. -/
def platformConstRule (n : Node) (platformFlag : String) : Rule :=
  ⟨n.startLine, n.endLine, "FromPlatformFlagConstDisallowed",
    "FROM --platform should not use a constant value '" ++ platformFlag ++
      "'. Use a variable like $BUILDPLATFORM or $TARGETPLATFORM, or specify --platform at build time instead.",
    "https://docs.docker.com/reference/build-checks/from-platform-flag-const-disallowed/",
    "warning"⟩

/-- One iteration of the third pass of `checkPlatformFlagConstDisallowed`:
skip non-FROM instructions, skip an absent or variable platform, skip a
referenced named stage, otherwise flag. -/
def platformConstStep (children : List Node) (c : Node) : List Rule :=
  if goToUpper c.value ≠ "FROM" then []
  else
    let stageName := (extractFromComponents c).2.1
    let platformFlag := (extractFromComponents c).2.2
    if platformFlag = "" ∨ ¬checkPlatformConstant platformFlag then []
    else if stageName ≠ "" ∧ (referencedStages children).contains (goToLower stageName) then []
    else [platformConstRule c platformFlag]

/-- `checkPlatformFlagConstDisallowed` from the Go source (third pass over
the instructions, using `referencedStages`). -/
def checkPlatformFlagConstDisallowed (children : List Node) : List Rule :=
  if children.isEmpty then []
  else children.flatMap (platformConstStep children)

/-- The emission condition of the third pass, per instruction. -/
def c8flagged (children : List Node) (c : Node) : Bool :=
  goToUpper c.value = "FROM" &&
    (extractFromComponents c).2.2 ≠ "" &&
    checkPlatformConstant (extractFromComponents c).2.2 &&
    ¬((extractFromComponents c).2.1 ≠ "" &&
      (referencedStages children).contains (goToLower (extractFromComponents c).2.1))

/-! ## The EXPOSE validator (`parseEXPOSE`) -/

/-- `checkExposeFormat` from the Go source: no colon anywhere. -/
def checkExposeFormat (portSpec : String) : Bool :=
  ¬goContainsChar portSpec ':'

/-- The port prefix `checkExposePortRange` parses: the part before the first
`/` (the whole argument when no `/` occurs). -/
def portNumStr (portSpec : String) : String :=
  if goContainsChar portSpec '/' then (splitOnChar '/' portSpec).headD ""
  else portSpec

/-- The numeric value of a digit run. -/
def natOfDigits (l : List Char) : Nat :=
  l.foldl (fun a c => a * 10 + (c.toNat - 48)) 0

/-- Go's `strconv.Atoi`: an optional sign, then one or more digits, the value
fitting a 64-bit `int`; everything else is an error (`none`). -/
def atoiGo (s : String) : Option Int :=
  let signed : Bool × List Char :=
    match s.data with
    | '-' :: rest => (true, rest)
    | '+' :: rest => (false, rest)
    | l => (false, l)
  if signed.2.isEmpty then none
  else if signed.2.all Char.isDigit then
    let v : Int := if signed.1 then -(natOfDigits signed.2 : Int) else (natOfDigits signed.2 : Int)
    if -(2 ^ 63) ≤ v ∧ v ≤ 2 ^ 63 - 1 then some v else none
  else none

/-- `checkExposePortRange` from the Go source: an unparseable prefix is
accepted; a parsed port must lie in `[0, 65535]`. -/
def checkExposePortRange (portSpec : String) : Bool :=
  match atoiGo (portNumStr portSpec) with
  | none => true
  | some port => decide (0 ≤ port ∧ port ≤ 65535)

/-- `checkExposeValidProtocol` from the Go source: with exactly one `/`, the
lowercased protocol must be `tcp` or `udp`; otherwise accepted. -/
def checkExposeValidProtocol (portSpec : String) : Bool :=
  if ¬goContainsChar portSpec '/' then true
  else
    match splitOnChar '/' portSpec with
    | [_, protocol] => goToLower protocol = "tcp" || goToLower protocol = "udp"
    | _ => true

/-- `checkExposeProtoCasing` from the Go source: with exactly one `/`, the
protocol must equal its own lowercasing; otherwise accepted. -/
def checkExposeProtoCasing (portSpec : String) : Bool :=
  if ¬goContainsChar portSpec '/' then true
  else
    match splitOnChar '/' portSpec with
    | [_, protocol] => protocol = goToLower protocol
    | _ => true

/-- The `ExposeInvalidFormat` rule for one argument. -/
def exposeFormatRule (n : Node) (v : String) : Rule :=
  NewErrorRule n "ExposeInvalidFormat"
    ("EXPOSE instruction should not define an IP address or host-port mapping, found '" ++ v ++ "'")
    "https://docs.docker.com/reference/build-checks/expose-invalid-format/"

/-- The `ExposePortOutOfRange` rule for one argument. -/
def exposePortRangeRule (n : Node) (v : String) : Rule :=
  NewErrorRule n "ExposePortOutOfRange"
    ("Port number in EXPOSE instruction is outside valid UNIX port range (0-65535): '" ++ v ++ "'")
    "https://en.wikipedia.org/wiki/List_of_TCP_and_UDP_port_numbers"

/-- The `ExposeInvalidProtocol` rule for one argument. -/
def exposeProtocolRule (n : Node) (v : String) : Rule :=
  NewErrorRule n "ExposeInvalidProtocol"
    ("Invalid protocol in EXPOSE instruction '" ++ v ++ "', only 'tcp' and 'udp' are supported")
    "https://docs.docker.com/reference/dockerfile/#expose"

/-- The `ExposeProtoCasing` warning for one argument. -/
def exposeCasingRule (n : Node) (v : String) : Rule :=
  NewWarningRule n "ExposeProtoCasing"
    ("Defined protocol '" ++ v ++ "' in EXPOSE instruction should be lowercase")
    "https://docs.docker.com/reference/build-checks/expose-proto-casing/"

/-- The three error checks of the `parseEXPOSE` loop on one argument, in
source order: format, then port range, then protocol. -/
def exposeErrFor (n : Node) (v : String) : Option Rule :=
  if ¬checkExposeFormat v then some (exposeFormatRule n v)
  else if ¬checkExposePortRange v then some (exposePortRangeRule n v)
  else if ¬checkExposeValidProtocol v then some (exposeProtocolRule n v)
  else none

/-- The error loop of `parseEXPOSE`: the arguments are scanned in order and
the first failing check returns alone. -/
def exposeErrLoop (n : Node) : List ArgNode → Option Rule
  | [] => none
  | a :: rest =>
    match exposeErrFor n a.value with
    | some r => some r
    | none => exposeErrLoop n rest

/-- `parseEXPOSE` from the Go source. -/
def parseEXPOSE (n : Node) : List Rule :=
  if n.args = [] then [invalidInstructionRule n "EXPOSE requires at least one argument"]
  else
    match exposeErrLoop n n.args with
    | some r => [r]
    | none =>
      (n.args.filter (fun a => ¬checkExposeProtoCasing a.value)).map
        (fun a => exposeCasingRule n a.value)

/-- An EXPOSE instruction node over the given argument tokens. -/
def exposeNode (vals : List String) : Node :=
  ⟨"EXPOSE", "", [], [], vals.map (fun v => ⟨v, []⟩), 1, 1⟩

/-! ## The undefined-variable pass (`checkUndefinedVar`) -/

/-- The predefined ARG names of `checkUndefinedVar` (and of
`checkUndefinedArgInFrom`). -/
def predefinedArgs : List String :=
  ["TARGETPLATFORM", "TARGETOS", "TARGETARCH", "TARGETVARIANT",
   "BUILDPLATFORM", "BUILDOS", "BUILDARCH", "BUILDVARIANT",
   "HTTP_PROXY", "http_proxy", "HTTPS_PROXY", "https_proxy",
   "FTP_PROXY", "ftp_proxy", "NO_PROXY", "no_proxy",
   "ALL_PROXY", "all_proxy"]

/-- `extractArgNames` from the Go source: each argument token's part before
`=` (or the whole token). -/
def extractArgNames (n : Node) : List String :=
  n.args.map (fun a =>
    if goContainsChar a.value '=' then beforeChar '=' a.value else a.value)

/-- The walking loop of `extractEnvNames`: a `KEY=value` token yields `KEY`;
a bare token yields itself and skips the following value token. -/
def envNamesAux : List ArgNode → List String
  | [] => []
  | a :: rest =>
    if goContainsChar a.value '=' then beforeChar '=' a.value :: envNamesAux rest
    else
      match rest with
      | [] => [a.value]
      | _ :: rest' => a.value :: envNamesAux rest'

/-- `extractEnvNames` from the Go source. -/
def extractEnvNames (n : Node) : List String := envNamesAux n.args

/-- `[a-zA-Z_]`, the first character of a variable name in the two regular
expressions of `extractVariableReferences`. -/
def isVarStartChar (c : Char) : Bool := c.isAlpha || c = '_'

/-- `[a-zA-Z0-9_]`, the following characters. -/
def isVarChar (c : Char) : Bool := c.isAlphanum || c = '_'

/-- The states of the scanner for the braced pattern
`\$\{[a-zA-Z_][a-zA-Z0-9_]*\}`. -/
inductive BraceState where
  | norm
  | dollar
  | brace
  | bname (acc : List Char)
  deriving DecidableEq, Repr

/-- One-character-per-step scanner equivalent to Go's
`FindAllStringSubmatch` for the braced pattern (leftmost, non-overlapping
matches): `norm` outside any candidate, `dollar` after `$`, `brace` after
`${`, `bname acc` inside the name (reversed in `acc`). -/
def scanBraceAux : BraceState → List Char → List String
  | _, [] => []
  | st, c :: rest =>
    match st with
    | .norm => if c = '$' then scanBraceAux .dollar rest else scanBraceAux .norm rest
    | .dollar =>
      if c = '{' then scanBraceAux .brace rest
      else if c = '$' then scanBraceAux .dollar rest
      else scanBraceAux .norm rest
    | .brace =>
      if isVarStartChar c then scanBraceAux (.bname [c]) rest
      else if c = '$' then scanBraceAux .dollar rest
      else scanBraceAux .norm rest
    | .bname acc =>
      if isVarChar c then scanBraceAux (.bname (c :: acc)) rest
      else if c = '}' then String.mk acc.reverse :: scanBraceAux .norm rest
      else if c = '$' then scanBraceAux .dollar rest
      else scanBraceAux .norm rest

/-- The submatches of the braced pattern over `text`. -/
def scanBraceRefs (text : String) : List String :=
  scanBraceAux .norm text.data

/-- The states of the scanner for the pattern `\$([a-zA-Z_][a-zA-Z0-9_]*)`. -/
inductive DollarState where
  | norm
  | dollar
  | dname (acc : List Char)
  deriving DecidableEq, Repr

/-- One-character-per-step scanner equivalent to Go's
`FindAllStringSubmatch` for the dollar pattern (leftmost, non-overlapping,
greedy names). -/
def scanDollarAux : DollarState → List Char → List String
  | st, [] =>
    match st with
    | .dname acc => [String.mk acc.reverse]
    | _ => []
  | st, c :: rest =>
    match st with
    | .norm => if c = '$' then scanDollarAux .dollar rest else scanDollarAux .norm rest
    | .dollar =>
      if isVarStartChar c then scanDollarAux (.dname [c]) rest
      else if c = '$' then scanDollarAux .dollar rest
      else scanDollarAux .norm rest
    | .dname acc =>
      if isVarChar c then scanDollarAux (.dname (c :: acc)) rest
      else if c = '$' then String.mk acc.reverse :: scanDollarAux .dollar rest
      else String.mk acc.reverse :: scanDollarAux .norm rest

/-- The submatches of the dollar pattern over `text`. -/
def scanDollarRefs (text : String) : List String :=
  scanDollarAux .norm text.data

/-- Deduplication keeping first occurrences (the `seen` map of
`extractVariableReferences`). -/
def dedupFirstAux (seen : List String) : List String → List String
  | [] => []
  | x :: rest =>
    if seen.contains x then dedupFirstAux seen rest
    else x :: dedupFirstAux (x :: seen) rest

/-- `extractVariableReferences` from the Go source: the braced matches, then
the dollar matches, deduplicated in first-seen order. -/
def extractVariableReferences (text : String) : List String :=
  dedupFirstAux [] (scanBraceRefs text ++ scanDollarRefs text)

/-- The `UndefinedVar` rule literal of `checkUndefinedVar`: the severity
parameter is `"error"` where the Go literal writes `Severity: SeverityError`
and `""` where the Go literal omits the field (Go's zero value). -/
def undefinedVarRule (n : Node) (varName sev : String) : Rule :=
  ⟨n.startLine, n.endLine, "UndefinedVar",
    "Usage of undefined variable '$" ++ varName ++ "'",
    "https://docs.docker.com/reference/build-checks/undefined-var/", sev⟩

/-- The emission pattern of `checkUndefinedVar`: one rule per variable
reference of `text` that is neither in scope nor predefined. -/
def undefRulesFor (stageVars : List String) (n : Node) (sev text : String) : List Rule :=
  (extractVariableReferences text).filterMap (fun varName =>
    if ¬stageVars.contains varName ∧ ¬predefinedArgs.contains varName then
      some (undefinedVarRule n varName sev)
    else none)

/-- The global-ARG collection loop of `checkUndefinedVar`: ARG names declared
before the first FROM. -/
def globalArgsLoop : List Node → List String
  | [] => []
  | c :: rest =>
    if goToUpper c.value = "FROM" then []
    else (if goToUpper c.value = "ARG" then extractArgNames c else []) ++ globalArgsLoop rest

/-- The ENV value checks of `checkUndefinedVar`: a `KEY=value` token is
checked on its value part (severity omitted in the Go literal, hence `""`); a
bare `KEY` token is checked on the following value token, which is skipped. -/
def envValueChecks (stageVars : List String) (n : Node) : List ArgNode → List Rule
  | [] => []
  | a :: rest =>
    if goContainsChar a.value '=' then
      (if afterChar '=' a.value ≠ "" then undefRulesFor stageVars n "" (afterChar '=' a.value)
       else []) ++ envValueChecks stageVars n rest
    else
      match rest with
      | [] => []
      | b :: rest' =>
        (if b.value ≠ "" then undefRulesFor stageVars n "" b.value else []) ++
          envValueChecks stageVars n rest'

/-- The per-stage loop of `checkUndefinedVar`, carrying the `inStage` flag
and the current stage scope. Each Go rule literal that omits `Severity`
passes `""` to `undefRulesFor`; the literals that set `SeverityError` pass
`"error"`. -/
def undefVarLoop (globalArgs : List String) : Bool → List String → List Node → List Rule
  | _, _, [] => []
  | inStage, stageVars, c :: rest =>
    if goToUpper c.value = "FROM" then
      let sv := globalArgs ++ predefinedArgs
      undefRulesFor sv c "error" (extractFromComponents c).1 ++
        (if (extractFromComponents c).2.2 ≠ "" then
          undefRulesFor sv c "" (extractFromComponents c).2.2
         else []) ++
        undefVarLoop globalArgs true sv rest
    else if ¬inStage then undefVarLoop globalArgs inStage stageVars rest
    else if goToUpper c.value = "ARG" then
      let sv := stageVars ++ extractArgNames c
      (match c.args with
       | [] => []
       | a :: _ =>
         if goContainsChar a.value '=' then undefRulesFor sv c "" (afterChar '=' a.value)
         else []) ++
        undefVarLoop globalArgs inStage sv rest
    else if goToUpper c.value = "ENV" then
      let sv := stageVars ++ extractEnvNames c
      envValueChecks sv c c.args ++ undefVarLoop globalArgs inStage sv rest
    else if goToUpper c.value = "RUN" ∨ goToUpper c.value = "CMD" ∨
        goToUpper c.value = "ENTRYPOINT" then
      (if c.attributes ≠ [] ∧ c.attributes.contains "json" then
        c.args.flatMap (fun a => undefRulesFor stageVars c "" a.value)
       else []) ++
        undefVarLoop globalArgs inStage stageVars rest
    else
      c.args.flatMap (fun a =>
        undefRulesFor stageVars c "error" a.value ++
          a.flags.flatMap (fun flag => undefRulesFor stageVars c "" flag)) ++
        c.flags.flatMap (fun flag => undefRulesFor stageVars c "error" flag) ++
        undefVarLoop globalArgs inStage stageVars rest

/-- `checkUndefinedVar` from the Go source. -/
def checkUndefinedVar (children : List Node) : List Rule :=
  if children.isEmpty then []
  else undefVarLoop (globalArgsLoop children) false [] children

/-! ## Concrete inputs -/

/-- `FROM --platform=$UNDEF alpine`: the FROM platform-flag branch of the
undefined-variable pass. -/
def c2Input : List Node :=
  [⟨"FROM", "FROM --platform=$UNDEF alpine", ["--platform=$UNDEF"], [],
    [⟨"alpine", []⟩], 1, 1⟩]

/-- An unrecognized instruction node (`FOO bar`). -/
def c3Input : Node :=
  ⟨"FOO", "FOO bar", [], [], [⟨"bar", []⟩], 1, 1⟩

/-- `ARG 1bad foo`: legacy spacing with a malformed name. -/
def c5Input : Node :=
  ⟨"ARG", "ARG 1bad foo", [], [], [⟨"1bad", []⟩, ⟨"foo", []⟩], 1, 1⟩

/-- `ARG foo bar`: legacy spacing with well-formed names. -/
def c5LegacyNode : Node :=
  ⟨"ARG", "ARG foo bar", [], [], [⟨"foo", []⟩, ⟨"bar", []⟩], 1, 1⟩

/-- A Dockerfile whose RUN instruction (line 2) ends line 2 with a
continuation backslash followed by an empty line 3. -/
def c6Input : String :=
  "FROM alpine\nRUN apk add \\\n\n    curl"

/-- A bare `CMD` with an empty argument region. -/
def c7Input : Node :=
  ⟨"CMD", "CMD", [], [], [], 1, 1⟩

/-- `CMD echo hi` with no SHELL instruction anywhere. -/
def c7ShellFormNode : Node :=
  ⟨"CMD", "CMD echo hi", [], [], [⟨"echo", []⟩, ⟨"hi", []⟩], 2, 2⟩

/-- `FROM --platform=linux/amd64 builder AS builder`: a constant platform on
a FROM whose own image reference equals its own stage name. -/
def c8Input : List Node :=
  [⟨"FROM", "FROM --platform=linux/amd64 builder AS builder",
    ["--platform=linux/amd64"], [],
    [⟨"builder", []⟩, ⟨"AS", []⟩, ⟨"builder", []⟩], 1, 1⟩]


/-! ## Scorer lemmas -/

theorem calcLoop_eq (rules : List Rule) : ∀ e w : Nat, calcLoop rules e w =
    if hasFatal rules then 0
    else max 0 (100 - ((e : Int) + errCount rules) * 15 - ((w : Int) + warnCount rules) * 5) := by
  induction rules with
  | nil =>
    intro e w
    simp only [calcLoop, hasFatal, errCount, warnCount, List.any_nil, List.countP_nil,
      if_false, Bool.false_eq_true]
    rw [max_def]
    split <;> split <;> push_cast <;> omega
  | cons r rest ih =>
    intro e w
    by_cases hf : r.severity = "fatal"
    · simp [calcLoop, hasFatal, hf]
    · by_cases he : r.severity = "error"
      · simp only [calcLoop, hf, he, if_true, if_false, ih]
        simp only [hasFatal, errCount, warnCount, List.any_cons, List.countP_cons, he, hf]
        simp only [decide_eq_true_eq]
        split
        · simp_all [hasFatal]
        · simp_all [hasFatal]
          congr 1
          ring_nf
      · by_cases hw : r.severity = "warning"
        · simp only [calcLoop, hf, he, hw, if_true, if_false, ih]
          simp only [hasFatal, errCount, warnCount, List.any_cons, List.countP_cons, he, hf, hw]
          split
          · simp_all [hasFatal]
          · simp_all [hasFatal]
            congr 1
            ring_nf
        · simp only [calcLoop, hf, he, hw, if_false, ih]
          simp only [hasFatal, errCount, warnCount, List.any_cons, List.countP_cons, he, hf, hw]
          simp_all [hasFatal]

theorem calculateScore_eq (rules : List Rule) : calculateScore rules =
    if hasFatal rules then 0
    else max 0 (100 - (errCount rules : Int) * 15 - (warnCount rules : Int) * 5) := by
  have h := calcLoop_eq rules 0 0
  simpa [calculateScore] using h

theorem calculateScore_nonneg (rules : List Rule) : 0 ≤ calculateScore rules := by
  rw [calculateScore_eq]
  split
  · omega
  · exact le_max_left 0 _

theorem calculateScore_le_100 (rules : List Rule) : calculateScore rules ≤ 100 := by
  rw [calculateScore_eq]
  split
  · omega
  · rw [max_def]
    split <;> omega

theorem calculateScore_fatal (rules : List Rule) (h : hasFatal rules = true) :
    calculateScore rules = 0 := by
  rw [calculateScore_eq, h]
  simp

/-! ## Association-list lemmas for the duplicate-stage-names pass -/

theorem groupsFind_insertStage_same (k : String) (v : StageInfo) :
    ∀ acc, groupsFind k (insertStage k v acc) = groupsFind k acc ++ [v] := by
  intro acc
  induction acc with
  | nil => simp [insertStage, groupsFind]
  | cons p rest ih =>
    obtain ⟨k', vs⟩ := p
    by_cases h : k' = k
    · simp [insertStage, groupsFind, h]
    · simp [insertStage, groupsFind, h, ih]

theorem groupsFind_insertStage_other (k k₀ : String) (v : StageInfo) (hne : k₀ ≠ k) :
    ∀ acc, groupsFind k₀ (insertStage k v acc) = groupsFind k₀ acc := by
  intro acc
  induction acc with
  | nil => simp [insertStage, groupsFind, Ne.symm hne]
  | cons p rest ih =>
    obtain ⟨k', vs⟩ := p
    by_cases h : k' = k
    · subst h
      simp [insertStage, groupsFind, Ne.symm hne]
    · simp only [insertStage, if_neg h, groupsFind]
      by_cases h0 : k' = k₀
      · simp [h0]
      · simp [h0, ih]

theorem groupsFind_foldl (stages : List StageInfo) :
    ∀ (acc : List (String × List StageInfo)) (k : String),
      groupsFind k (stages.foldl (fun a s => insertStage (keyOf s) s a) acc) =
        groupsFind k acc ++ stages.filter (fun s => keyOf s == k) := by
  induction stages with
  | nil => simp
  | cons s rest ih =>
    intro acc k
    simp only [List.foldl_cons, List.filter_cons]
    by_cases h : keyOf s = k
    · subst h
      rw [ih, groupsFind_insertStage_same]
      simp
    · rw [ih, groupsFind_insertStage_other _ _ _ (fun hh => h hh.symm)]
      simp [h]

theorem groupKeys_insertStage (k : String) (v : StageInfo) :
    ∀ acc, groupKeys (insertStage k v acc) =
      if k ∈ groupKeys acc then groupKeys acc else groupKeys acc ++ [k] := by
  intro acc
  induction acc with
  | nil => simp [insertStage, groupKeys]
  | cons p rest ih =>
    obtain ⟨k', vs⟩ := p
    by_cases h : k' = k
    · simp [insertStage, groupKeys, h]
    · simp only [insertStage, groupKeys, List.map_cons, if_neg h]
      rw [show groupKeys (insertStage k v rest) = (insertStage k v rest).map Prod.fst from rfl]
        at ih
      simp only [groupKeys] at ih
      rw [ih]
      by_cases hm : k ∈ rest.map Prod.fst
      · simp [hm, Ne.symm h]
      · simp [hm, Ne.symm h]

theorem groupKeys_nodup_insertStage (k : String) (v : StageInfo)
    (acc : List (String × List StageInfo)) (h : (groupKeys acc).Nodup) :
    (groupKeys (insertStage k v acc)).Nodup := by
  rw [groupKeys_insertStage]
  split
  · exact h
  · next hk =>
    refine List.Nodup.append h (List.nodup_singleton k) ?_
    intro a ha hb
    rw [List.mem_singleton] at hb
    exact hk (hb ▸ ha)

theorem groupKeys_foldl_nodup (stages : List StageInfo) :
    ∀ (acc : List (String × List StageInfo)), (groupKeys acc).Nodup →
      (groupKeys (stages.foldl (fun a s => insertStage (keyOf s) s a) acc)).Nodup := by
  induction stages with
  | nil => intro acc h; simpa using h
  | cons s rest ih =>
    intro acc h
    exact ih _ (groupKeys_nodup_insertStage _ _ _ h)

theorem mem_groupKeys_insertStage_self (k : String) (v : StageInfo)
    (acc : List (String × List StageInfo)) : k ∈ groupKeys (insertStage k v acc) := by
  rw [groupKeys_insertStage]
  split
  · assumption
  · simp

theorem mem_groupKeys_insertStage_mono (k k₀ : String) (v : StageInfo)
    (acc : List (String × List StageInfo)) (h : k₀ ∈ groupKeys acc) :
    k₀ ∈ groupKeys (insertStage k v acc) := by
  rw [groupKeys_insertStage]
  split
  · exact h
  · simp [h]

theorem mem_groupKeys_foldl_mono (stages : List StageInfo) :
    ∀ (acc : List (String × List StageInfo)) (k₀ : String), k₀ ∈ groupKeys acc →
      k₀ ∈ groupKeys (stages.foldl (fun a t => insertStage (keyOf t) t a) acc) := by
  induction stages with
  | nil => intro acc k₀ h; simpa using h
  | cons u us ih =>
    intro acc k₀ h
    exact ih _ _ (mem_groupKeys_insertStage_mono _ _ _ _ h)

theorem mem_groupKeys_foldl (stages : List StageInfo) :
    ∀ (acc : List (String × List StageInfo)) (s : StageInfo), s ∈ stages →
      keyOf s ∈ groupKeys (stages.foldl (fun a t => insertStage (keyOf t) t a) acc) := by
  induction stages with
  | nil => simp
  | cons t rest ih =>
    intro acc s hs
    rcases List.mem_cons.mp hs with h | h
    · subst h
      simp only [List.foldl_cons]
      exact mem_groupKeys_foldl_mono rest _ _ (mem_groupKeys_insertStage_self (keyOf s) s acc)
    · exact ih _ s h

theorem mem_of_mem_groupKeys (acc : List (String × List StageInfo)) (k : String)
    (h : k ∈ groupKeys acc) : ∃ vs, (k, vs) ∈ acc := by
  induction acc with
  | nil => simp [groupKeys] at h
  | cons p rest ih =>
    obtain ⟨k', vs⟩ := p
    rcases List.mem_cons.mp (by simpa [groupKeys] using h : k ∈ k' :: groupKeys rest) with h1 | h1
    · exact ⟨vs, by simp [h1.symm]⟩
    · obtain ⟨vs', hvs'⟩ := ih h1
      exact ⟨vs', List.mem_cons_of_mem _ hvs'⟩

theorem mem_group_eq_groupsFind (acc : List (String × List StageInfo))
    (hnd : (groupKeys acc).Nodup) (k : String) (vs : List StageInfo)
    (h : (k, vs) ∈ acc) : vs = groupsFind k acc := by
  induction acc with
  | nil => simp at h
  | cons p rest ih =>
    obtain ⟨k', vs'⟩ := p
    simp only [groupKeys, List.map_cons, List.nodup_cons] at hnd
    rcases List.mem_cons.mp h with h1 | h1
    · have hk : k = k' := congrArg Prod.fst h1
      have hv : vs = vs' := congrArg Prod.snd h1
      subst hk
      simp [groupsFind, hv]
    · have hk' : k' ≠ k := by
        intro he
        subst he
        exact hnd.1 (by
          have : k' ∈ (rest.map Prod.fst) := List.mem_map.mpr ⟨(k', vs), h1, rfl⟩
          simpa [groupKeys] using this)
      simp only [groupsFind, if_neg hk']
      exact ih hnd.2 h1

theorem collect_group_eq (children : List Node) (k : String) (vs : List StageInfo)
    (h : (k, vs) ∈ collectStages children) :
    vs = (namedStages children).filter (fun s => keyOf s == k) := by
  have hnd : (groupKeys (collectStages children)).Nodup := by
    apply groupKeys_foldl_nodup
    simp [groupKeys]
  have h1 := mem_group_eq_groupsFind _ hnd k vs h
  rw [show collectStages children =
      (namedStages children).foldl (fun a s => insertStage (keyOf s) s a) [] from rfl,
    groupsFind_foldl] at h1
  simpa [groupsFind] using h1

theorem collect_key_present (children : List Node) (s : StageInfo)
    (h : s ∈ namedStages children) : ∃ vs, (keyOf s, vs) ∈ collectStages children := by
  apply mem_of_mem_groupKeys
  exact mem_groupKeys_foldl _ _ _ h

/-! ## Lemmas for the JSON-args pass -/

theorem jsonArgsLoop_shell (l : List Node) : jsonArgsLoop true l = [] := by
  induction l with
  | nil => rfl
  | cons c rest ih =>
    simp only [jsonArgsLoop]
    split_ifs <;> simp_all

theorem jsonArgsLoop_noshell (l : List Node) :
    jsonArgsLoop false l = (l.filter jsonQualifies).map jsonArgsRule := by
  induction l with
  | nil => rfl
  | cons c rest ih =>
    simp only [jsonArgsLoop, List.filter_cons]
    by_cases hk : goToUpper c.value = "CMD" ∨ goToUpper c.value = "ENTRYPOINT"
    · by_cases hr : argRegion c = ""
      · have : jsonQualifies c = false := by
          simp [jsonQualifies, hr]
        rw [if_neg (by tauto), if_pos hr, this]
        simpa using ih
      · by_cases he : goHasPrefix (argRegion c) "["
        · have : jsonQualifies c = false := by
            simp [jsonQualifies, he]
          rw [if_neg (by tauto), if_neg hr, this]
          simp only [Bool.false_eq_true, if_false]
          split_ifs with h
          · exact absurd he h.1
          · simpa using ih
        · have : jsonQualifies c = true := by
            simp [jsonQualifies, hk, hr, he]
          rw [if_neg (by tauto), if_neg hr, this, if_pos ⟨by simpa using he, by simp⟩]
          simp [ih]
    · have hq : jsonQualifies c = false := by
        simp only [jsonQualifies]
        rcases not_or.mp hk with ⟨h1, h2⟩
        simp [h1, h2]
      rw [if_pos (by tauto), hq]
      simpa using ih

/-! ## Lemmas for the constant-platform pass -/

theorem mem_marksForRef (keys : List String) (ir k : String) :
    k ∈ marksForRef keys ir ↔
      ((k = ir ∧ ir ∈ keys) ∨
        (ir ∉ keys ∧ k ∈ keys ∧ goHasPrefix ir (extractStagePrefix k) = true)) := by
  rw [marksForRef]
  by_cases hc : keys.contains ir
  · rw [if_pos hc]
    have hm : ir ∈ keys := List.elem_iff.mp hc
    simp only [List.mem_singleton]
    constructor
    · intro hk
      exact Or.inl ⟨hk, hm⟩
    · rintro (⟨hk, -⟩ | ⟨hnot, -, -⟩)
      · exact hk
      · exact absurd hm hnot
  · rw [if_neg hc]
    have hm : ir ∉ keys := fun h => hc (List.elem_iff.mpr h)
    simp only [List.mem_filter]
    constructor
    · rintro ⟨h1, h2⟩
      exact Or.inr ⟨hm, h1, h2⟩
    · rintro (⟨hk, hmem⟩ | ⟨-, h1, h2⟩)
      · exact absurd hmem hm
      · exact ⟨h1, h2⟩

theorem mem_referencedStages (children : List Node) (k : String) :
    k ∈ referencedStages children ↔
      ∃ c ∈ children, goToUpper c.value = "FROM" ∧ (extractFromComponents c).1 ≠ "" ∧
        ((k = goToLower (extractFromComponents c).1 ∧
            goToLower (extractFromComponents c).1 ∈ stageKeysOf children) ∨
          (goToLower (extractFromComponents c).1 ∉ stageKeysOf children ∧
            k ∈ stageKeysOf children ∧
            goHasPrefix (goToLower (extractFromComponents c).1) (extractStagePrefix k) = true)) := by
  rw [referencedStages, List.mem_flatMap]
  constructor
  · rintro ⟨c, hc, hk⟩
    by_cases hf : goToUpper c.value = "FROM"
    · rw [if_pos hf] at hk
      by_cases hi : (extractFromComponents c).1 ≠ ""
      · rw [if_pos hi] at hk
        rcases (mem_marksForRef _ _ _).mp hk with ⟨h1, h2⟩ | ⟨h1, h2, h3⟩
        · exact ⟨c, hc, hf, hi, Or.inl ⟨h1, h2⟩⟩
        · exact ⟨c, hc, hf, hi, Or.inr ⟨h1, h2, h3⟩⟩
      · rw [if_neg hi] at hk
        simp at hk
    · rw [if_neg hf] at hk
      simp at hk
  · rintro ⟨c, hc, hf, hi, hcase⟩
    refine ⟨c, hc, ?_⟩
    rw [if_pos hf, if_pos hi]
    apply (mem_marksForRef _ _ _).mpr
    rcases hcase with ⟨h1, h2⟩ | ⟨h1, h2, h3⟩
    · exact Or.inl ⟨h1, h2⟩
    · exact Or.inr ⟨h1, h2, h3⟩

theorem platformConstStep_eq (children : List Node) (c : Node) :
    platformConstStep children c =
      if c8flagged children c then [platformConstRule c (extractFromComponents c).2.2]
      else [] := by
  rw [platformConstStep]
  by_cases h1 : goToUpper c.value = "FROM"
  · rw [if_neg (by simp [h1])]
    by_cases h2 : (extractFromComponents c).2.2 = "" ∨
        ¬checkPlatformConstant (extractFromComponents c).2.2
    · rw [if_pos h2]
      have : c8flagged children c = false := by
        rcases h2 with h2 | h2
        · simp [c8flagged, h2]
        · simp only [Bool.not_eq_true] at h2
          simp [c8flagged, h2]
      rw [this]
      simp
    · rw [if_neg h2]
      push_neg at h2
      obtain ⟨h2a, h2b⟩ := h2
      by_cases h3 : (extractFromComponents c).2.1 ≠ "" ∧
          (referencedStages children).contains (goToLower (extractFromComponents c).2.1)
      · rw [if_pos h3]
        have : c8flagged children c = false := by
          have hmem : goToLower (extractFromComponents c).2.1 ∈ referencedStages children :=
            List.elem_iff.mp h3.2
          simp [c8flagged, h1, h2a, h2b, h3.1, hmem]
        rw [this]
        simp
      · rw [if_neg h3]
        have : c8flagged children c = true := by
          simp only [not_and] at h3
          by_cases h4 : (extractFromComponents c).2.1 = ""
          · simp [c8flagged, h1, h2a, h2b, h4]
          · have hnm : goToLower (extractFromComponents c).2.1 ∉ referencedStages children :=
              fun hmem => h3 h4 (List.elem_iff.mpr hmem)
            simp [c8flagged, h1, h2a, h2b, h4, hnm]
        rw [this]
        simp
  · have hflag : c8flagged children c = false := by simp [c8flagged, h1]
    rw [if_pos (by simp [h1]), hflag]
    simp

theorem flatMap_platformConstStep (children : List Node) :
    ∀ l : List Node, l.flatMap (platformConstStep children) =
      (l.filter (c8flagged children)).map
        (fun c => platformConstRule c (extractFromComponents c).2.2) := by
  intro l
  induction l with
  | nil => rfl
  | cons c rest ih =>
    rw [List.flatMap_cons, List.filter_cons, platformConstStep_eq]
    by_cases h : c8flagged children c
    · rw [if_pos h, if_pos h]
      simp [ih]
    · rw [if_neg h, if_neg (by simpa using h)]
      simp [ih]

/-! ## Lemmas for the EXPOSE validator -/

theorem exposeErrLoop_eq_findSome (n : Node) :
    ∀ args : List ArgNode, exposeErrLoop n args =
      args.findSome? (fun a => exposeErrFor n a.value) := by
  intro args
  induction args with
  | nil => rfl
  | cons a rest ih =>
    rw [exposeErrLoop, List.findSome?_cons]
    cases h : exposeErrFor n a.value <;> simp [h, ih]

/-! ## Claim theorems -/

/-- C1: for every rule list the facade packages (`ParseDockerfile` returns
`Result{Rules: parseRules, Score: calculateScore(parseRules)}`), the score
equals `max(0, 100 − 15·errors − 5·warnings)` counted over that final list
when no rule is fatal, is 0 when some rule is fatal, and always lies in
[0, 100]. -/
theorem c1_score_formula (rules : List Rule) :
    ((parseResult rules).score =
      if hasFatal rules then 0
      else max 0 (100 - 15 * (errCount rules : Int) - 5 * (warnCount rules : Int))) ∧
    0 ≤ (parseResult rules).score ∧ (parseResult rules).score ≤ 100 := by
  refine ⟨?_, calculateScore_nonneg rules, calculateScore_le_100 rules⟩
  rw [show (parseResult rules).score = calculateScore rules from rfl, calculateScore_eq]
  split
  · rfl
  · congr 1
    ring_nf

/-- C2: evaluation of `checkUndefinedVar` at `FROM --platform=$UNDEF alpine`.
The pass emits its `UndefinedVar` rule for the platform flag from a struct
literal that omits the `Severity` field, so the rule's severity is Go's zero
value `""`, not `error` as the claim (and the spec's closed severity set)
requires. The same omission occurs in the ARG-default, ENV-value, exec-form
and argument-flag branches. -/
theorem c2_undefined_var_empty_severity :
    checkUndefinedVar c2Input =
      [⟨1, 1, "UndefinedVar", "Usage of undefined variable '$UNDEF'",
        "https://docs.docker.com/reference/build-checks/undefined-var/", ""⟩] ∧
    ("" : String) ≠ "error" := by
  decide

/-- C3 (amended: the dispatch switch recognizes 18 keywords, not 19): an
instruction whose uppercased keyword is outside `recognizedInstructions`
contributes exactly one rule, the fatal `UnrecognizedInstruction` rule; that
rule reaches the final list, forces the score to 0, and every instruction's
rules are still collected (each a sublist of the final list). The statement
holds for every family of per-instruction validators. -/
theorem c3_unrecognized_fatal (validate : String → Node → List Rule) (preRules : List Rule)
    (children : List Node) (c : Node) (hc : c ∈ children)
    (hunrec : recognizedInstructions.contains (goToUpper c.value) = false) :
    instructionRules validate c = [unrecognizedRule c] ∧
    (unrecognizedRule c).code = "UnrecognizedInstruction" ∧
    (unrecognizedRule c).severity = "fatal" ∧
    unrecognizedRule c ∈ (parseDockerfileCore validate preRules children).rules ∧
    (parseDockerfileCore validate preRules children).score = 0 ∧
    (∀ c' ∈ children,
      (instructionRules validate c').Sublist
        (parseDockerfileCore validate preRules children).rules) ∧
    recognizedInstructions.length = 18 := by
  have hone : instructionRules validate c = [unrecognizedRule c] := by
    simp only [instructionRules]
    rw [hunrec]
    simp
  have hmem : unrecognizedRule c ∈ (parseDockerfileCore validate preRules children).rules := by
    simp only [parseDockerfileCore, parseResult, dispatchAll]
    refine List.mem_append_right _ ?_
    refine List.mem_flatMap.mpr ⟨c, hc, ?_⟩
    rw [hone]
    exact List.mem_singleton_self _
  refine ⟨hone, rfl, rfl, hmem, ?_, ?_, rfl⟩
  · apply calculateScore_fatal
    refine List.any_eq_true.mpr ⟨unrecognizedRule c, hmem, ?_⟩
    simp [unrecognizedRule, NewFatalRule]
  · intro c' hc'
    simp only [parseDockerfileCore, parseResult, dispatchAll]
    refine List.Sublist.trans ?_ (List.sublist_append_right preRules _)
    have hmap : instructionRules validate c' ∈ children.map (instructionRules validate) :=
      List.mem_map.mpr ⟨c', hc', rfl⟩
    simpa [List.flatMap] using List.sublist_flatten_of_mem hmap

/-- C3 witness: the unrecognized instruction `FOO bar` yields exactly the
fatal rule and a zero score. -/
theorem c3_unrecognized_witness :
    instructionRules (fun _ _ => []) c3Input = [unrecognizedRule c3Input] ∧
    (parseDockerfileCore (fun _ _ => []) [] [c3Input]).score = 0 := by
  have h := c3_unrecognized_fatal (fun _ _ => []) [] [c3Input] c3Input (by simp) (by decide)
  exact ⟨h.1, h.2.2.2.2.1⟩

/-- C3 counterexample: the recognized keyword list of the dispatch switch has
18 pairwise-distinct entries, not 19 as the claim counts. -/
theorem c3_eighteen_keywords :
    recognizedInstructions.length = 18 ∧ recognizedInstructions.Nodup ∧
    ¬recognizedInstructions.length = 19 := by
  decide

/-- C4 (amended: rules are grouped by lowercased name, not emitted in global
traversal order): every stage occurrence whose lowercased name occurs at
least twice gets a `DuplicateStageName` error, every emitted rule is such an
occurrence, the occurrences of one name appear in traversal order inside
their group (`collectStages` files each group in traversal order), and the
pass iterates group by group. -/
theorem c4_duplicate_stage_names (children : List Node) :
    (∀ s ∈ namedStages children,
      2 ≤ (namedStages children).countP (fun t => keyOf t == keyOf s) →
      dupStageRule s ∈ checkDuplicateStageNames children) ∧
    (∀ r ∈ checkDuplicateStageNames children, ∃ s ∈ namedStages children,
      r = dupStageRule s ∧
      2 ≤ (namedStages children).countP (fun t => keyOf t == keyOf s)) ∧
    (∀ k vs, (k, vs) ∈ collectStages children →
      vs = (namedStages children).filter (fun s => keyOf s == k)) ∧
    checkDuplicateStageNames children =
      (collectStages children).flatMap
        (fun p => if 1 < p.2.length then p.2.map dupStageRule else []) := by
  have hguard : checkDuplicateStageNames children =
      (collectStages children).flatMap
        (fun p => if 1 < p.2.length then p.2.map dupStageRule else []) := by
    by_cases hemp : children.isEmpty
    · have : children = [] := List.isEmpty_iff.mp hemp
      subst this
      simp [checkDuplicateStageNames, collectStages, namedStages]
    · simp [checkDuplicateStageNames, hemp]
  refine ⟨?_, ?_, fun k vs h => collect_group_eq children k vs h, hguard⟩
  · intro s hs hcount
    obtain ⟨vs, hvs⟩ := collect_key_present children s hs
    have hveq := collect_group_eq children _ vs hvs
    have hsvs : s ∈ vs := by
      rw [hveq]
      exact List.mem_filter.mpr ⟨hs, by simp⟩
    have hlen : 1 < vs.length := by
      rw [hveq, ← List.countP_eq_length_filter]
      omega
    rw [hguard]
    refine List.mem_flatMap.mpr ⟨(keyOf s, vs), hvs, ?_⟩
    rw [if_pos hlen]
    exact List.mem_map.mpr ⟨s, hsvs, rfl⟩
  · intro r hr
    rw [hguard] at hr
    obtain ⟨⟨k, vs⟩, hp, hrin⟩ := List.mem_flatMap.mp hr
    by_cases hlen : 1 < vs.length
    · rw [if_pos hlen] at hrin
      obtain ⟨s, hsvs, hrs⟩ := List.mem_map.mp hrin
      have hveq := collect_group_eq children k vs hp
      have hsf := hveq ▸ hsvs
      obtain ⟨hsn, hks⟩ := List.mem_filter.mp hsf
      have hkeq : keyOf s = k := by simpa using hks
      refine ⟨s, hsn, hrs.symm, ?_⟩
      rw [hkeq, List.countP_eq_length_filter, ← hveq]
      omega
    · rw [if_neg hlen] at hrin
      simp at hrin

/-- C4 counterexample: with the duplicated names `x` (lines 1, 3) and `y`
(lines 2, 4) interleaved, the pass emits the rules grouped by name — start
lines 1, 3, 2, 4 — not in the traversal order 1, 2, 3, 4 of the FROM
instructions, as the claim states. -/
theorem c4_grouped_not_traversal :
    (checkDuplicateStageNames c4Input).map Rule.startLine = [1, 3, 2, 4] ∧
    ¬(checkDuplicateStageNames c4Input).map Rule.startLine = [1, 2, 3, 4] := by
  decide

/-- C5 (amended: when the legacy spacing is detected the format check is
skipped, so no `ArgInvalidFormat` can accompany the warning): the legacy
warning fires exactly when the trimmed config has two or more
whitespace-separated parts and one of them lacks `=` (hence never for a
single bare token), a legacy instruction yields exactly the
`LegacyKeyValueFormat` warning, and `ArgInvalidFormat` is emitted precisely
when the legacy syntax is absent and the format check fails. -/
theorem c5_arg_legacy_format (n : Node) (hargs : n.args ≠ [])
    (hcfg : goTrim (extractARGConfig n) ≠ "") :
    (checkARGLegacySyntax (extractARGConfig n) = true ↔
      2 ≤ (goFields (goTrim (extractARGConfig n))).length ∧
        ∃ part ∈ goFields (goTrim (extractARGConfig n)), goContainsChar part '=' = false) ∧
    (checkARGLegacySyntax (extractARGConfig n) = true → parseARG n = [argLegacyRule n]) ∧
    (checkARGLegacySyntax (extractARGConfig n) = false →
      checkARGFormat (extractARGConfig n) = false → parseARG n = [argInvalidFormatRule n]) ∧
    (checkARGLegacySyntax (extractARGConfig n) = false →
      checkARGFormat (extractARGConfig n) = true → parseARG n = []) := by
  refine ⟨?_, ?_, ?_, ?_⟩
  · rw [checkARGLegacySyntax]
    simp only [if_neg hcfg]
    by_cases hlen : (goFields (goTrim (extractARGConfig n))).length ≤ 1
    · rw [if_pos hlen]
      simp only [Bool.false_eq_true, false_iff, not_and]
      intro h2
      omega
    · rw [if_neg hlen]
      rw [List.any_eq_true]
      constructor
      · rintro ⟨part, hp, hnc⟩
        refine ⟨by omega, part, hp, ?_⟩
        simpa using hnc
      · rintro ⟨-, part, hp, hnc⟩
        exact ⟨part, hp, by simpa using hnc⟩
  · intro hleg
    rw [parseARG, if_neg hargs]
    simp only [if_neg hcfg]
    rw [if_neg (by simp [hleg]), if_pos hleg]
  · intro hleg hfmt
    rw [parseARG, if_neg hargs]
    simp only [if_neg hcfg]
    rw [if_pos ⟨by simp [hleg], by simp [hfmt]⟩]
  · intro hleg hfmt
    rw [parseARG, if_neg hargs]
    simp only [if_neg hcfg]
    rw [if_neg (by simp [hleg, hfmt]), if_neg (by simp [hleg])]

/-- C5 witness: `ARG foo bar` yields exactly the legacy warning. -/
theorem c5_arg_legacy_witness : parseARG c5LegacyNode = [argLegacyRule c5LegacyNode] :=
  (c5_arg_legacy_format c5LegacyNode (by decide) (by decide)).2.1 (by decide)

/-- C5 counterexample: `ARG 1bad foo` has the malformed name `1bad`, yet
`parseARG` emits only the `LegacyKeyValueFormat` warning — the format check
is skipped under legacy syntax, so no `ArgInvalidFormat` appears, contrary to
the claim. -/
theorem c5_format_check_skipped :
    (parseARG c5Input).map Rule.code = ["LegacyKeyValueFormat"] ∧
    isValidARGName "1bad" = false := by
  decide

/-- C6: evaluation of `checkEmptyContinuations` at
`"FROM alpine\nRUN apk add \\\n\n    curl"`. The continuation belongs to the
RUN instruction, whose first line is line 2, but the backward search stops at
the previous instruction's line and the emitted rule has `startLine = 1`, not
2 — contrary to the claim and to the code's own comment ("Search backwards to
find the start of the instruction"). -/
theorem c6_continuation_startline :
    checkEmptyContinuations c6Input = [noEmptyContinuationRule 1 3] ∧
    splitOnChar '\n' c6Input = ["FROM alpine", "RUN apk add \\", "", "    curl"] ∧
    (1 : Nat) ≠ 2 := by
  decide

/-- C7 (amended: an empty original argument region is skipped): with a SHELL
instruction anywhere the pass emits nothing; otherwise it emits exactly one
`JSONArgsRecommended` warning per CMD/ENTRYPOINT instruction whose original
argument region is non-empty and does not begin with `[`. -/
theorem c7_json_args_recommended (children : List Node) :
    checkJSONArgsRecommended children =
      if hasShellInstruction children then []
      else (children.filter jsonQualifies).map jsonArgsRule := by
  by_cases he : children.isEmpty
  · have : children = [] := List.isEmpty_iff.mp he
    subst this
    simp [checkJSONArgsRecommended, hasShellInstruction]
  · rw [checkJSONArgsRecommended, if_neg he]
    by_cases hs : hasShellInstruction children
    · rw [hs, jsonArgsLoop_shell, if_pos rfl]
    · rw [Bool.not_eq_true] at hs
      rw [hs, jsonArgsLoop_noshell, if_neg (by simp [hs])]

/-- C7 counterexample: a bare `CMD` has an empty argument region, which does
not begin with `[`, and no SHELL instruction is present — yet the pass emits
no rule, where the claim requires exactly one. -/
theorem c7_empty_region_skipped :
    checkJSONArgsRecommended [c7Input] = [] ∧
    hasShellInstruction [c7Input] = false ∧
    argRegion c7Input = "" ∧
    goHasPrefix (argRegion c7Input) "[" = false := by
  decide

/-- C8 (amended: the marking pass considers every FROM instruction, the
scrutinized one included, and skips prefix matching when the image reference
exactly equals a declared stage name): the pass emits one
`FromPlatformFlagConstDisallowed` warning per FROM with a constant platform
whose stage name is not marked, and a stage key is marked exactly when some
FROM's non-empty lowercased image reference either equals it (and it is
declared), or — the reference matching no declared name exactly — starts
with its `extractStagePrefix`. -/
theorem c8_platform_const_tolerance (children : List Node) :
    (checkPlatformFlagConstDisallowed children =
      (children.filter (c8flagged children)).map
        (fun c => platformConstRule c (extractFromComponents c).2.2)) ∧
    (∀ k, k ∈ referencedStages children ↔
      ∃ c ∈ children, goToUpper c.value = "FROM" ∧ (extractFromComponents c).1 ≠ "" ∧
        ((k = goToLower (extractFromComponents c).1 ∧
            goToLower (extractFromComponents c).1 ∈ stageKeysOf children) ∨
          (goToLower (extractFromComponents c).1 ∉ stageKeysOf children ∧
            k ∈ stageKeysOf children ∧
            goHasPrefix (goToLower (extractFromComponents c).1)
              (extractStagePrefix k) = true))) := by
  constructor
  · by_cases he : children.isEmpty
    · have : children = [] := List.isEmpty_iff.mp he
      subst this
      rfl
    · rw [checkPlatformFlagConstDisallowed, if_neg he, flatMap_platformConstStep]
  · exact mem_referencedStages children

/-- C8 counterexample: `FROM --platform=linux/amd64 builder AS builder`
alone. No other FROM references the stage, so the claim requires the
warning — but the FROM's own image reference equals its own stage name, the
marking pass accepts it, and no rule is emitted. -/
theorem c8_self_reference_suppresses :
    checkPlatformFlagConstDisallowed c8Input = [] ∧
    checkPlatformConstant "linux/amd64" = true ∧
    extractFromComponents (⟨"FROM", "FROM --platform=linux/amd64 builder AS builder",
      ["--platform=linux/amd64"], [], [⟨"builder", []⟩, ⟨"AS", []⟩, ⟨"builder", []⟩],
      1, 1⟩ : Node) = ("builder", "builder", "linux/amd64") := by
  decide

/-- C9: the EXPOSE arguments are checked in order with only the first error
returned (`exposeErrLoop` is `findSome?` of the per-argument check, and a
found error is the whole result); a colon anywhere fails the format check; a
parseable numeric prefix before `/` is accepted exactly within [0, 65535]
while an unparseable prefix is accepted; a `port/proto` argument is accepted
exactly when the lowercased protocol is `tcp` or `udp`; `EXPOSE 65535` yields
no rules and `EXPOSE 65536` yields `ExposePortOutOfRange`. -/
theorem c9_expose_checks :
    (∀ (n : Node) (args : List ArgNode),
      exposeErrLoop n args = args.findSome? (fun a => exposeErrFor n a.value)) ∧
    (∀ (n : Node) (r : Rule), n.args ≠ [] → exposeErrLoop n n.args = some r →
      parseEXPOSE n = [r]) ∧
    (∀ v : String, goContainsChar v ':' = true → checkExposeFormat v = false) ∧
    (∀ (v : String) (p : Int), atoiGo (portNumStr v) = some p →
      (checkExposePortRange v = true ↔ 0 ≤ p ∧ p ≤ 65535)) ∧
    (∀ v : String, atoiGo (portNumStr v) = none → checkExposePortRange v = true) ∧
    (∀ v port protocol : String, goContainsChar v '/' = true →
      splitOnChar '/' v = [port, protocol] →
      (checkExposeValidProtocol v = true ↔
        goToLower protocol = "tcp" ∨ goToLower protocol = "udp")) ∧
    parseEXPOSE (exposeNode ["65535"]) = [] ∧
    parseEXPOSE (exposeNode ["65536"]) = [exposePortRangeRule (exposeNode ["65536"]) "65536"] := by
  refine ⟨exposeErrLoop_eq_findSome, ?_, ?_, ?_, ?_, ?_, by decide, by decide⟩
  · intro n r hne hloop
    rw [parseEXPOSE, if_neg hne, hloop]
  · intro v hc
    simp [checkExposeFormat, hc]
  · intro v p hp
    rw [checkExposePortRange, hp]
    simp
  · intro v hp
    rw [checkExposePortRange, hp]
  · intro v port protocol hc hsplit
    rw [checkExposeValidProtocol, if_neg (by simp [hc]), hsplit]
    simp

/-- C10: the scorer ignores any rule whose severity is none of `fatal`,
`error`, `warning` — inserting such a rule (the empty severity included)
anywhere leaves the score unchanged — and a rule with severity `fatal`
forces 0 wherever it stands. -/
theorem c10_score_other_severities (r : Rule) (xs ys : List Rule) :
    (r.severity ≠ "fatal" → r.severity ≠ "error" → r.severity ≠ "warning" →
      calculateScore (xs ++ r :: ys) = calculateScore (xs ++ ys)) ∧
    (r.severity = "fatal" → calculateScore (xs ++ r :: ys) = 0) := by
  constructor
  · intro hf he hw
    rw [calculateScore_eq, calculateScore_eq]
    have h1 : hasFatal (xs ++ r :: ys) = hasFatal (xs ++ ys) := by
      simp [hasFatal, List.any_append, hf]
    have h2 : errCount (xs ++ r :: ys) = errCount (xs ++ ys) := by
      simp [errCount, List.countP_append, List.countP_cons, he]
    have h3 : warnCount (xs ++ r :: ys) = warnCount (xs ++ ys) := by
      simp [warnCount, List.countP_append, List.countP_cons, hw]
    rw [h1, h2, h3]
  · intro hf
    apply calculateScore_fatal
    simp [hasFatal, List.any_append, hf]

/-- C10 witness: a rule with the empty severity contributes nothing, and a
fatal rule zeroes the score. -/
theorem c10_score_witness :
    calculateScore [(⟨1, 1, "UndefinedVar", "d", "u", ""⟩ : Rule)] = calculateScore [] ∧
    calculateScore [(⟨1, 1, "X", "d", "u", "fatal"⟩ : Rule)] = 0 :=
  ⟨(c10_score_other_severities ⟨1, 1, "UndefinedVar", "d", "u", ""⟩ [] []).1
      (by decide) (by decide) (by decide),
    (c10_score_other_severities ⟨1, 1, "X", "d", "u", "fatal"⟩ [] []).2 rfl⟩

end Dockadvisor
